import Mathlib

/-!
Verification of the `determined-ai/determined-ui` component kit against its
natural-language specification.  The TypeScript sources are shallowly embedded:
pixel coordinates are rationals (JS numbers restricted to the exact values the
code manipulates), DOM event handlers become explicit transition functions and
event lists, and the `throttle-debounce` leading-edge throttle becomes a fold
carrying the `lastExec` timestamp.
-/

/-! ## SplitPane (src/kit/SplitPane.tsx)

The component keeps `width` (the left pane width) and `isDragging` in React
state.  While dragging, every `mousemove` recomputes

`newWidth = Math.round(Math.min(Math.max(minimumWidths.left, pointerRelativeXpos - 8), size.width - minimumWidths.right))`

where `pointerRelativeXpos = e.clientX - size.x`.
-/

/-- The two pane identifiers (`Pane` enum in SplitPane.tsx). -/
inductive Pane
  | left
  | right
  deriving DecidableEq, Repr

/-- `minimumWidths` prop: `{ left, right }` in pixels. -/
structure PaneWidths where
  left : ℚ
  right : ℚ
  deriving DecidableEq, Repr

/-- Container bounds supplied by the `useResize` size observer: horizontal
offset `x` and `width` in pixels. -/
structure Bounds where
  x : ℚ
  width : ℚ
  deriving DecidableEq, Repr

/-- JavaScript `Math.round`: round half toward positive infinity. -/
def jsRound (q : ℚ) : ℤ := ⌊q + 1 / 2⌋

/-- The width computed by the `mousemove` handler `handleDrag` in
SplitPane.tsx:
`Math.round(Math.min(Math.max(minimumWidths.left, e.clientX - size.x - 8), size.width - minimumWidths.right))`. -/
def newWidth (minimumWidths : PaneWidths) (size : Bounds) (clientX : ℚ) : ℤ :=
  jsRound (min (max minimumWidths.left (clientX - size.x - 8))
    (size.width - minimumWidths.right))

/-- The clamp operation as the specification words it: the candidate is
"clamped to the interval [lo, hi]" (lower bound applied, then upper bound). -/
def clampSpec (lo hi x : ℚ) : ℚ := max lo (min x hi)

/-- Component state: `width` and `isDragging` from `useState` in
SplitPane.tsx. -/
structure SplitPaneState where
  width : ℚ
  isDragging : Bool
  deriving DecidableEq, Repr

/-- Mount-time state: `useState(initialWidth)` and `useState(false)`. -/
def initState (initialWidth : ℚ) : SplitPaneState :=
  { width := initialWidth, isDragging := false }

/-- `hideHandle = hidePane === Pane.Left || hidePane === Pane.Right` in
SplitPane.tsx; the handle is rendered with `display: hideHandle ? 'none' :
'initial'`. -/
def hideHandle (hidePane : Option Pane) : Bool :=
  hidePane = some Pane.left || hidePane = some Pane.right

/-- Events the component's handlers react to.  `setInitialWidth` stands for a
change of the `initialWidth` prop, which the effect
`useEffect(() => setWidth(initialWidth), [initialWidth])` applies to state. -/
inductive SPEvent
  | mouseDown (button : ℕ)
  | mouseMove (clientX : ℚ)
  | mouseUp (button : ℕ)
  | setInitialWidth (w : ℚ)
  deriving DecidableEq

/-- One step of the SplitPane state machine, mirroring the four state writers
in SplitPane.tsx:
* `handleDragStart` (mousedown on the handle element, primary button only);
  the listener sits on the handle node, and a node styled `display: none` is
  not rendered and receives no mouse events, so the handler can only run when
  `hideHandle` is false;
* `handleDrag` (document mousemove, attached only while `isDragging`);
* `handleDragStop` (document mouseup, attached only while `isDragging`,
  primary button only);
* the `initialWidth` effect, which runs on every prop change regardless of
  `isDragging`. -/
def step (minimumWidths : PaneWidths) (size : Bounds) (hidePane : Option Pane)
    (s : SplitPaneState) (e : SPEvent) : SplitPaneState :=
  match e with
  | .mouseDown button =>
      if hideHandle hidePane = false ∧ button = 0 then
        { s with isDragging := true }
      else s
  | .mouseMove clientX =>
      if s.isDragging then
        { s with width := ((newWidth minimumWidths size clientX : ℤ) : ℚ) }
      else s
  | .mouseUp button =>
      if s.isDragging = true ∧ button = 0 then
        { s with isDragging := false }
      else s
  | .setInitialWidth w => { s with width := w }

/-- The PaneLayout invariant claimed in the specification:
`minimumLeftWidthPx <= leftWidthPx <= containerWidthPx - minimumRightWidthPx`. -/
def paneWidthInvariant (minimumWidths : PaneWidths) (size : Bounds)
    (s : SplitPaneState) : Prop :=
  minimumWidths.left ≤ s.width ∧ s.width ≤ size.width - minimumWidths.right

/-! ### Drag-session onChange trace

`throttledOnChange = throttle(8, onChange, { noTrailing: true })` from the
`throttle-debounce` package: the wrapper keeps a `lastExec` timestamp
(initially 0) and, in `noTrailing` mode, invokes the callback exactly when
`Date.now() - lastExec > delay`, updating `lastExec`; nothing is ever
scheduled, so `cancel()` at drag end has no pending invocation to clear.
During a drag every mousemove calls `setWidth(newWidth)` and
`throttledOnChange(newWidth)`; `handleDragStop` then calls
`throttledOnChange.cancel()` followed by a direct `onChange(width)`. -/

/-- A pointer-move event inside a drag session: timestamp in milliseconds and
pointer `clientX`. -/
structure MoveEvent where
  t : ℕ
  clientX : ℚ
  deriving DecidableEq, Repr

/-- The `onChange` invocations performed by the leading-edge throttle during
the pointer-move phase, folding the throttle's `lastExec` state over the move
events.  Each emitted pair is (timestamp, reported width). -/
def moveEmissions (minimumWidths : PaneWidths) (size : Bounds) :
    ℕ → List MoveEvent → List (ℕ × ℚ)
  | _, [] => []
  | lastExec, m :: rest =>
    if lastExec + 8 < m.t then
      (m.t, ((newWidth minimumWidths size m.clientX : ℤ) : ℚ))
        :: moveEmissions minimumWidths size m.t rest
    else moveEmissions minimumWidths size lastExec rest

/-- The `width` state at the end of the move phase: every mousemove overwrites
it with the newly computed width (`setWidth(newWidth)`). -/
def dragFinalWidth (minimumWidths : PaneWidths) (size : Bounds) (w0 : ℚ)
    (moves : List MoveEvent) : ℚ :=
  moves.foldl (fun _ m => ((newWidth minimumWidths size m.clientX : ℤ) : ℚ)) w0

/-- The full `onChange` trace of one drag session: the throttled move-phase
emissions followed by the single synchronous final call `onChange(width)`
issued by `handleDragStop` after `throttledOnChange.cancel()`. -/
def dragSession (minimumWidths : PaneWidths) (size : Bounds) (lastExec0 : ℕ)
    (w0 : ℚ) (moves : List MoveEvent) (tUp : ℕ) : List (ℕ × ℚ) :=
  moveEmissions minimumWidths size lastExec0 moves
    ++ [(tUp, dragFinalWidth minimumWidths size w0 moves)]

/-! ## Theme propagation (src/kit/Theme/UI.tsx)

`camelCaseToKebab` trims the input and maps each character: a character equal
to its own `toUpperCase()` image becomes its lowercase form preceded by a
hyphen (no hyphen at index 0); other characters pass through.  The `UI`
component then executes
`Object.keys(theme).forEach(key => ref.current?.style.setProperty('--theme-' + camelCaseToKebab(key), theme[key]))`
on its root element. -/

/-- JavaScript `String.prototype.trim` on a character list: whitespace removed
from both ends. -/
def trimChars (l : List Char) : List Char :=
  ((l.dropWhile Char.isWhitespace).reverse.dropWhile Char.isWhitespace).reverse

/-- The per-character mapping inside `camelCaseToKebab`:
`char === char.toUpperCase() ? (index !== 0 ? '-' : '') + char.toLowerCase() : char`. -/
def kebabMapChar (index : ℕ) (c : Char) : List Char :=
  if c.toUpper = c then (if index ≠ 0 then ['-'] else []) ++ [c.toLower] else [c]

/-- `camelCaseToKebab` from UI.tsx: `text.trim().split('').map(...).join('')`. -/
def camelCaseToKebab (text : String) : String :=
  ⟨(trimChars text.data).enum.flatMap (fun p => kebabMapChar p.1 p.2)⟩

/-- The CSS custom-property writes performed on the root element by the theme
loop of the `UI` component, in key order: one
`setProperty('--theme-' + camelCaseToKebab(key), value)` per theme key. -/
def themeCssVarWrites (theme : List (String × String)) : List (String × String) :=
  theme.map (fun kv => ("--theme-" ++ camelCaseToKebab kv.1, kv.2))

/-- The kebab mapping exactly as claim C6 words it: each uppercase character
becomes its lowercase form preceded by a hyphen except at index 0, all other
characters are left unchanged.  Stated for comparison with the source-derived
`camelCaseToKebab`. -/
def specKebabChar (index : ℕ) (c : Char) : List Char :=
  if c.isUpper then (if index ≠ 0 then ['-'] else []) ++ [c.toLower] else [c]

/-- The claim's description of the full key mapping (no trimming is
mentioned). -/
def specKebab (text : String) : String :=
  ⟨text.data.enum.flatMap (fun p => specKebabChar p.1 p.2)⟩

/-- The 52 ASCII letters; actual `Theme` keys (camelCase identifiers such as
`surfaceOnWeak`) consist only of these. -/
def asciiLetters : List Char :=
  "ABCDEFGHIJKLMNOPQRSTUVWXYZabcdefghijklmnopqrstuvwxyz".data

/-! ## GlideTable column move (DataGrid.tsx, `onColumnMoved`) -/

/-- The `newCols` computation of `onColumnMoved`:
`const newCols = [...sortableColumnIds]; const [toMove] = newCols.splice(sStart, 1); newCols.splice(sEnd, 0, toMove);`.
JavaScript `splice` clamps the insertion index to the array length, hence the
`min`; an out-of-range removal would splice in `undefined`, which cannot occur
for in-range grid indices. -/
def movedColumnIds (sortableColumnIds : List String) (sStart sEnd : ℕ) :
    List String :=
  let removed := sortableColumnIds.eraseIdx sStart
  removed.insertIdx (min sEnd removed.length) (sortableColumnIds.getD sStart "")

/-- The `onColumnMoved` handler of `GlideTable`.  Returns the argument passed
to `onSortableColumnChange` (if invoked) and the argument passed to
`onPinnedColumnsCountChange` (if invoked). -/
def onColumnMoved (staticColumnsLength pinnedColumnsCount : ℕ)
    (sortableColumnIds : List String)
    (columnIdsStartIdx columnIdsEndIdx : ℕ) :
    Option (List String) × Option ℤ :=
  if columnIdsStartIdx < staticColumnsLength then (none, none)
  else
    let pinnedColumnEnd := staticColumnsLength + pinnedColumnsCount
    let isIntoPinned :=
      pinnedColumnEnd ≤ columnIdsStartIdx ∧ columnIdsEndIdx < pinnedColumnEnd
    let isOutOfPinned :=
      columnIdsStartIdx < pinnedColumnEnd ∧ pinnedColumnEnd ≤ columnIdsEndIdx
    let pinnedMsg : Option ℤ :=
      if isIntoPinned then some ((pinnedColumnsCount : ℤ) + 1)
      else if isOutOfPinned then some ((pinnedColumnsCount : ℤ) - 1)
      else none
    let sortableColumnIdsStartIdx := columnIdsStartIdx - staticColumnsLength
    let sortableColumnIdsEndIdx := columnIdsEndIdx - staticColumnsLength
    (some (movedColumnIds sortableColumnIds sortableColumnIdsStartIdx
      sortableColumnIdsEndIdx), pinnedMsg)

/-! ## Avatar initials (src/kit/Avatar.tsx and DesignKit.tsx, `getInitials`) -/

/-- JavaScript `s.split(/\s+/)` worker: walks the characters keeping the
current (reversed) token and a flag recording whether the previous character
belonged to a whitespace run.  A maximal whitespace run separates two tokens;
leading or trailing runs produce empty boundary tokens, exactly as the regexp
split does. -/
def splitWsGo : List Char → List Char → Bool → List (List Char)
  | [], acc, _ => [acc.reverse]
  | c :: rest, acc, inWs =>
    if c.isWhitespace then
      if inWs then splitWsGo rest acc true
      else acc.reverse :: splitWsGo rest [] true
    else splitWsGo rest (c :: acc) false

/-- JavaScript `name.split(/\s+/)`. -/
def jsSplitWs (s : String) : List String :=
  (splitWsGo s.data [] false).map (fun l => ⟨l⟩)

/-- The local `initials` value of `getInitials`:
`name.split(/\s+/).map(n => n.charAt(0).toUpperCase()).join('')`
(`charAt(0)` of an empty token is the empty string). -/
def initialsOf (name : String) : List Char :=
  ((jsSplitWs name).map (fun n => (n.data.take 1).map Char.toUpper)).flatten

/-- `getInitials` from Avatar.tsx / DesignKit.tsx: keep the initials when at
most two, otherwise `initials.charAt(0) + initials.substring(initials.length - 1)`. -/
def getInitials (name : String) : String :=
  let initials := initialsOf name
  if 2 < initials.length then
    ⟨initials.take 1 ++ initials.drop (initials.length - 1)⟩
  else ⟨initials⟩

/-! ## UI state reducer (src/kit/Theme/UI.tsx) -/

/-- Light/dark/system mode enumeration (`Mode` from themeUtils; its values are
only carried through the reducer, never inspected). -/
inductive Mode
  | system
  | light
  | dark
  deriving DecidableEq, Repr

/-- `StateUI`, parametric in the `Theme` payload type `Θ` (theme objects are
only stored, never inspected, by the reducer). -/
structure StateUI (Θ : Type) where
  chromeCollapsed : Bool
  isPageHidden : Bool
  mode : Mode
  showChrome : Bool
  showSpinner : Bool
  theme : Θ
  deriving DecidableEq, Repr

/-- `ActionUI`. -/
inductive ActionUI (Θ : Type)
  | hideUIChrome
  | hideUISpinner
  | setMode (value : Mode)
  | setPageVisibility (value : Bool)
  | setTheme (theme : Θ)
  | showUIChrome
  | showUISpinner

/-- `Partial<StateUI>`: the object (possibly) returned by `reducerUI`, with
`none` for absent fields. -/
structure StateUIPatch (Θ : Type) where
  chromeCollapsed : Option Bool := none
  isPageHidden : Option Bool := none
  mode : Option Mode := none
  showChrome : Option Bool := none
  showSpinner : Option Bool := none
  theme : Option Θ := none

/-- `reducerUI` from UI.tsx; a `void` return (the bare `return;` branches) is
`none`. -/
def reducerUI {Θ : Type} (state : StateUI Θ) (action : ActionUI Θ) :
    Option (StateUIPatch Θ) :=
  match action with
  | .hideUIChrome =>
      if !state.showChrome then none else some { showChrome := some false }
  | .hideUISpinner =>
      if !state.showSpinner then none else some { showSpinner := some false }
  | .setMode value => some { mode := some value }
  | .setPageVisibility value => some { isPageHidden := some value }
  | .setTheme theme => some { theme := some theme }
  | .showUIChrome =>
      if state.showChrome then none else some { showChrome := some true }
  | .showUISpinner =>
      if state.showSpinner then none else some { showSpinner := some true }

/-- Object spread `{ ...state, ...newState }` with `newState` a partial
record. -/
def spreadPatch {Θ : Type} (s : StateUI Θ) (p : StateUIPatch Θ) : StateUI Θ :=
  { chromeCollapsed := p.chromeCollapsed.getD s.chromeCollapsed
    isPageHidden := p.isPageHidden.getD s.isPageHidden
    mode := p.mode.getD s.mode
    showChrome := p.showChrome.getD s.showChrome
    showSpinner := p.showSpinner.getD s.showSpinner
    theme := p.theme.getD s.theme }

/-- `reducer` from UI.tsx: `{ ...state, ...reducerUI(state, action) }`
(spreading `undefined` leaves the state unchanged). -/
def reducer {Θ : Type} (state : StateUI Θ) (action : ActionUI Θ) : StateUI Θ :=
  match reducerUI state action with
  | none => state
  | some p => spreadPatch state p

/-! ## Helper lemmas -/

/-- Rounding stays below an integer upper bound. -/
theorem jsRound_le (b : ℤ) (x : ℚ) (h : x ≤ (b : ℚ)) : jsRound x ≤ b := by
  unfold jsRound
  have h2 : x + 1 / 2 ≤ (b : ℚ) + 1 / 2 := by linarith
  have h3 : ⌊x + 1 / 2⌋ ≤ ⌊(b : ℚ) + 1 / 2⌋ := Int.floor_le_floor h2
  have h4 : ⌊(b : ℚ) + 1 / 2⌋ = b + ⌊(1 / 2 : ℚ)⌋ := by
    rw [add_comm, Int.floor_add_int, add_comm]
  have h5 : ⌊(1 / 2 : ℚ)⌋ = 0 := by norm_num
  omega

/-- Rounding stays above an integer lower bound. -/
theorem le_jsRound (a : ℤ) (x : ℚ) (h : (a : ℚ) ≤ x) : a ≤ jsRound x := by
  unfold jsRound
  have h2 : (a : ℚ) + 1 / 2 ≤ x + 1 / 2 := by linarith
  have h3 : ⌊(a : ℚ) + 1 / 2⌋ ≤ ⌊x + 1 / 2⌋ := Int.floor_le_floor h2
  have h4 : ⌊(a : ℚ) + 1 / 2⌋ = a + ⌊(1 / 2 : ℚ)⌋ := by
    rw [add_comm, Int.floor_add_int, add_comm]
  have h5 : ⌊(1 / 2 : ℚ)⌋ = 0 := by norm_num
  omega

/-- When the clamp interval is nonempty, the source's min-outside/max-inside
order coincides with clamping to the interval. -/
theorem newWidth_eq_clamp (mins : PaneWidths) (size : Bounds) (clientX : ℚ)
    (h : mins.left ≤ size.width - mins.right) :
    newWidth mins size clientX
      = jsRound (clampSpec mins.left (size.width - mins.right)
          (clientX - size.x - 8)) := by
  unfold newWidth clampSpec
  congr 1
  rw [max_min_distrib_left, max_eq_right h]

/-- Every throttled emission happens strictly more than 8ms after the
`lastExec` state the fold started from. -/
theorem moveEmissions_mem_gt (mins : PaneWidths) (size : Bounds) :
    ∀ (le : ℕ) (ms : List MoveEvent) (e : ℕ × ℚ),
      e ∈ moveEmissions mins size le ms → le + 8 < e.1 := by
  intro le ms
  induction ms generalizing le with
  | nil => intro e h; simp [moveEmissions] at h
  | cons m rest ih =>
    intro e h
    rw [moveEmissions] at h
    by_cases hc : le + 8 < m.t
    · rw [if_pos hc] at h
      rcases List.mem_cons.mp h with h1 | h1
      · rw [h1]; exact hc
      · have := ih m.t e h1; omega
    · rw [if_neg hc] at h
      exact ih le e h

/-- Any two throttled emissions of one drag session are more than 8ms
apart. -/
theorem moveEmissions_pairwise (mins : PaneWidths) (size : Bounds)
    (le : ℕ) (ms : List MoveEvent) :
    (moveEmissions mins size le ms).Pairwise (fun a b => a.1 + 8 < b.1) := by
  induction ms generalizing le with
  | nil => simp [moveEmissions]
  | cons m rest ih =>
    rw [moveEmissions]
    by_cases hc : le + 8 < m.t
    · rw [if_pos hc]
      refine List.Pairwise.cons ?_ (ih m.t)
      intro e he
      exact moveEmissions_mem_gt mins size m.t rest e he
    · rw [if_neg hc]
      exact ih le

/-- A pairwise-separated list keeps at most one element of any set no two
related elements can share. -/
theorem pairwise_filter_length_le_one {α : Type} {R : α → α → Prop}
    {p : α → Bool} (l : List α) (hp : l.Pairwise R)
    (h : ∀ a b, R a b → p a = true → p b = true → False) :
    (l.filter p).length ≤ 1 := by
  induction l with
  | nil => simp
  | cons a t ih =>
    rcases List.pairwise_cons.mp hp with ⟨ha, ht⟩
    by_cases hpa : p a = true
    · rw [List.filter_cons_of_pos hpa]
      have : t.filter p = [] := by
        rw [List.filter_eq_nil_iff]
        intro b hb hpb
        exact h a b (ha b hb) hpa hpb
      rw [this]
      simp
    · rw [List.filter_cons_of_neg (by simpa using hpa)]
      exact ih ht

/-- Removing the element at an in-range index and re-consing it in front is a
permutation of the original list. -/
theorem getD_cons_eraseIdx_perm (l : List String) (i : ℕ) (h : i < l.length) :
    (l.getD i "" :: l.eraseIdx i).Perm l := by
  induction l generalizing i with
  | nil => simp at h
  | cons a t ih =>
    cases i with
    | zero => simp
    | succ n =>
      have h2 : n < t.length := by simpa using h
      have step1 : (t.getD n "" :: a :: t.eraseIdx n).Perm
          (a :: (t.getD n "" :: t.eraseIdx n)) := List.Perm.swap a (t.getD n "") _
      have step2 : (a :: (t.getD n "" :: t.eraseIdx n)).Perm (a :: t) :=
        List.Perm.cons a (ih n h2)
      simpa using step1.trans step2

/-- The splice-out/splice-in column move permutes the sortable column ids. -/
theorem movedColumnIds_perm (l : List String) (sStart sEnd : ℕ)
    (h : sStart < l.length) :
    (movedColumnIds l sStart sEnd).Perm l := by
  unfold movedColumnIds
  have h1 : (l.eraseIdx sStart).insertIdx (min sEnd (l.eraseIdx sStart).length)
      (l.getD sStart "") |>.Perm (l.getD sStart "" :: l.eraseIdx sStart) :=
    List.perm_insertIdx _ _ (min_le_right _ _)
  exact h1.trans (getD_cons_eraseIdx_perm l sStart h)

/-- ASCII letters: `toUpperCase` fixes a letter exactly when it is uppercase,
and no letter is whitespace. -/
theorem asciiLetter_facts {c : Char} (h : c ∈ asciiLetters) :
    ((c.toUpper = c) ↔ c.isUpper = true) ∧ c.isWhitespace = false := by
  fin_cases h <;> exact ⟨by decide, by decide⟩

/-- `dropWhile` is the identity when no element satisfies the predicate. -/
theorem dropWhile_eq_self_of_none {l : List Char} {p : Char → Bool}
    (h : ∀ c ∈ l, p c = false) : l.dropWhile p = l := by
  cases l with
  | nil => rfl
  | cons a t =>
    rw [List.dropWhile_cons, h a (List.mem_cons_self a t)]
    simp

/-- `trim` is the identity on whitespace-free strings. -/
theorem trimChars_eq_self {l : List Char} (h : ∀ c ∈ l, c.isWhitespace = false) :
    trimChars l = l := by
  unfold trimChars
  rw [dropWhile_eq_self_of_none h]
  rw [dropWhile_eq_self_of_none (by intro c hc; exact h c (List.mem_reverse.mp hc))]
  exact List.reverse_reverse l

/-- On letter-only inputs the source's per-character mapping and the claim's
per-character mapping produce the same flattened output. -/
theorem enumFrom_flatMap_kebab (n : ℕ) (l : List Char)
    (h : ∀ c ∈ l, c ∈ asciiLetters) :
    (List.enumFrom n l).flatMap (fun p => kebabMapChar p.1 p.2)
      = (List.enumFrom n l).flatMap (fun p => specKebabChar p.1 p.2) := by
  induction l generalizing n with
  | nil => rfl
  | cons a t ih =>
    rw [List.enumFrom_cons]
    rw [List.flatMap_cons, List.flatMap_cons]
    have ha := asciiLetter_facts (h a (List.mem_cons_self a t))
    have heq : kebabMapChar n a = specKebabChar n a := by
      unfold kebabMapChar specKebabChar
      by_cases hu : a.isUpper = true
      · rw [if_pos (ha.1.mpr hu), if_pos hu]
      · rw [if_neg (fun hc => hu (ha.1.mp hc)), if_neg (by simpa using hu)]
    rw [heq, ih (n + 1) (fun c hc => h c (List.mem_cons_of_mem a hc))]

/-- On letter-only keys, `camelCaseToKebab` computes exactly the mapping claim
C6 describes. -/
theorem camelCaseToKebab_eq_specKebab (key : String)
    (h : ∀ c ∈ key.data, c ∈ asciiLetters) :
    camelCaseToKebab key = specKebab key := by
  unfold camelCaseToKebab specKebab
  have htrim : trimChars key.data = key.data :=
    trimChars_eq_self (fun c hc => (asciiLetter_facts (h c hc)).2)
  rw [htrim]
  rw [List.enum]
  exact congrArg _ (enumFrom_flatMap_kebab 0 key.data h)

/-! ## Claim theorems -/

/-- C1: during the pointer-move phase of a drag session the throttled
`onChange` emissions are pairwise more than 8ms apart (leading-edge throttle,
at most one emission in any 8ms window, trailing calls suppressed), and the
session trace ends with exactly one further synchronous call carrying the
final left-pane width, which is the last call of the session. -/
theorem splitPane_onChange_throttle_final (mins : PaneWidths) (size : Bounds)
    (le0 : ℕ) (w0 : ℚ) (moves : List MoveEvent) (tUp : ℕ) :
    (moveEmissions mins size le0 moves).Pairwise (fun a b => a.1 + 8 < b.1)
    ∧ (∀ T : ℕ, ((moveEmissions mins size le0 moves).filter
        (fun e => decide (T ≤ e.1 ∧ e.1 < T + 8))).length ≤ 1)
    ∧ dragSession mins size le0 w0 moves tUp
        = moveEmissions mins size le0 moves
          ++ [(tUp, dragFinalWidth mins size w0 moves)]
    ∧ (dragSession mins size le0 w0 moves tUp).getLast?
        = some (tUp, dragFinalWidth mins size w0 moves) := by
  refine ⟨moveEmissions_pairwise mins size le0 moves, ?_, rfl, ?_⟩
  · intro T
    refine pairwise_filter_length_le_one _
      (moveEmissions_pairwise mins size le0 moves) ?_
    intro a b hR hpa hpb
    have ha := of_decide_eq_true hpa
    have hb := of_decide_eq_true hpb
    omega
  · unfold dragSession
    rw [List.getLast?_concat]

/-- C2: on a pointer move while dragging, the new left width is the candidate
`clientX - size.x - 8` clamped to `[minimumWidths.left, size.width -
minimumWidths.right]` and rounded to the nearest integer pixel (stated for a
nonempty clamp interval, which is what "clamped to the interval" presumes). -/
theorem splitPane_drag_clamp_round (mins : PaneWidths) (size : Bounds)
    (hp : Option Pane) (s : SplitPaneState) (clientX : ℚ)
    (hd : s.isDragging = true) (h : mins.left ≤ size.width - mins.right) :
    (step mins size hp s (SPEvent.mouseMove clientX)).width
      = ((jsRound (clampSpec mins.left (size.width - mins.right)
          (clientX - size.x - 8)) : ℤ) : ℚ) := by
  simp only [step, hd, if_true]
  show ((newWidth mins size clientX : ℤ) : ℚ) = _
  exact_mod_cast newWidth_eq_clamp mins size clientX h

/-- C2 witness: with minimum widths 200/200, container `[0, 600]` and pointer
at 300, the dragged width is 292. -/
theorem splitPane_drag_clamp_round_witness :
    (step ⟨200, 200⟩ ⟨0, 600⟩ none ⟨400, true⟩ (SPEvent.mouseMove 300)).width
      = 292 := by
  have h := splitPane_drag_clamp_round ⟨200, 200⟩ ⟨0, 600⟩ none ⟨400, true⟩ 300
    rfl (by norm_num)
  rw [h]
  unfold clampSpec jsRound
  norm_num

/-- C3 counterexample: with `minimumWidths = {left: 200, right: 200}` and
container width 300 a drag yields 100 (the upper clamp bound `size.width -
minimumWidths.right`), not the 200 the claim asserts. -/
theorem splitPane_narrow_clamp_counterexample :
    newWidth ⟨200, 200⟩ ⟨0, 300⟩ 150 = 100
    ∧ newWidth ⟨200, 200⟩ ⟨0, 300⟩ 150 ≠ 200 := by
  constructor <;> unfold newWidth jsRound <;> norm_num

/-- C3 amended: whenever `size.width - minimumWidths.right <
minimumWidths.left` (container too narrow, including a zero-width unmeasured
container), every drag computation pins the width to the rounded upper bound
`size.width - minimumWidths.right` — the outer `Math.min` wins, regardless of
the pointer position. -/
theorem splitPane_narrow_clamp_upper_wins (mins : PaneWidths) (size : Bounds)
    (clientX : ℚ) (h : size.width - mins.right < mins.left) :
    newWidth mins size clientX = jsRound (size.width - mins.right) := by
  unfold newWidth
  congr 1
  exact min_eq_right (le_of_lt (lt_of_lt_of_le h (le_max_left _ _)))

/-- C3 amended witness: container width 300, minimums 200/200, pointer
anywhere: the result is 100. -/
theorem splitPane_narrow_clamp_upper_wins_witness :
    newWidth ⟨200, 200⟩ ⟨0, 300⟩ 999 = jsRound (300 - 200)
    ∧ newWidth ⟨200, 200⟩ ⟨0, 300⟩ 999 = 100 := by
  have h := splitPane_narrow_clamp_upper_wins ⟨200, 200⟩ ⟨0, 300⟩ 999 (by norm_num)
  refine ⟨h, ?_⟩
  rw [h]
  unfold jsRound
  norm_num

/-- C4 counterexample: the reachable mount state seeded from `initialWidth =
500` with container width 600 and minimums 200/200 has both panes visible
(`hidePane = none`), a nonzero container, `isDragging = false`, and violates
the claimed invariant (500 > 600 - 200). -/
theorem splitPane_reachable_invariant_counterexample :
    (initState 500).isDragging = false
    ∧ hideHandle none = false
    ∧ (⟨0, 600⟩ : Bounds).width ≠ 0
    ∧ ¬ paneWidthInvariant ⟨200, 200⟩ ⟨0, 600⟩ (initState 500) := by
  refine ⟨rfl, rfl, by norm_num, ?_⟩
  unfold paneWidthInvariant initState
  norm_num

/-- C4 amended: the invariant `minimumWidths.left ≤ width ≤ size.width -
minimumWidths.right` does hold in every state just produced by a pointer move
while dragging, provided the clamp interval is nonempty and its bounds are
whole pixels; it fails in general for states seeded from `initialWidth`,
which is accepted as-is. -/
theorem splitPane_invariant_after_drag_move (mins : PaneWidths) (size : Bounds)
    (hp : Option Pane) (s : SplitPaneState) (clientX : ℚ) (a b : ℤ)
    (ha : mins.left = (a : ℚ)) (hb : size.width - mins.right = (b : ℚ))
    (hab : mins.left ≤ size.width - mins.right) (hd : s.isDragging = true) :
    paneWidthInvariant mins size
      (step mins size hp s (SPEvent.mouseMove clientX)) := by
  unfold paneWidthInvariant step
  rw [hd]
  simp only [if_true]
  set c : ℚ := clientX - size.x - 8 with hc
  have hlo : mins.left ≤ min (max mins.left c) (size.width - mins.right) :=
    le_min (le_max_left _ _) hab
  have hhi : min (max mins.left c) (size.width - mins.right)
      ≤ size.width - mins.right := min_le_right _ _
  constructor
  · rw [ha]
    have := le_jsRound a (min (max mins.left c) (size.width - mins.right))
      (by rw [← ha]; exact hlo)
    exact_mod_cast this
  · rw [hb]
    have := jsRound_le b (min (max mins.left c) (size.width - mins.right))
      (by rw [← hb]; exact hhi)
    exact_mod_cast this

/-- C4 amended witness: a drag move with pointer at 450 in a 600px container
with minimums 200/200 lands inside the invariant interval. -/
theorem splitPane_invariant_after_drag_move_witness :
    paneWidthInvariant ⟨200, 200⟩ ⟨0, 600⟩
      (step ⟨200, 200⟩ ⟨0, 600⟩ none ⟨300, true⟩ (SPEvent.mouseMove 450)) :=
  splitPane_invariant_after_drag_move ⟨200, 200⟩ ⟨0, 600⟩ none ⟨300, true⟩ 450
    200 400 (by norm_num) (by norm_num) (by norm_num) rfl

/-- C5: while `isDragging` is false no event other than an `initialWidth`
change alters the width, and an `initialWidth` change resets the width to the
new value regardless of the dragging state. -/
theorem splitPane_width_controlled (mins : PaneWidths) (size : Bounds)
    (hp : Option Pane) (s : SplitPaneState) :
    (∀ e : SPEvent, s.isDragging = false → (∀ w, e ≠ SPEvent.setInitialWidth w) →
      (step mins size hp s e).width = s.width)
    ∧ (∀ w, (step mins size hp s (SPEvent.setInitialWidth w)).width = w) := by
  constructor
  · intro e hd hni
    cases e with
    | mouseDown button => simp only [step]; split <;> rfl
    | mouseMove clientX => simp only [step, hd]; rfl
    | mouseUp button => simp only [step]; split <;> rfl
    | setInitialWidth w => exact absurd rfl (hni w)
  · intro w
    rfl

/-- C5 witness: a mouse move while idle leaves the width at 400; an
`initialWidth` change during a drag resets the width to 123. -/
theorem splitPane_width_controlled_witness :
    (step ⟨200, 200⟩ ⟨0, 600⟩ none ⟨400, false⟩ (SPEvent.mouseMove 100)).width
      = 400
    ∧ (step ⟨200, 200⟩ ⟨0, 600⟩ none ⟨400, true⟩
        (SPEvent.setInitialWidth 123)).width = 123 := by
  constructor
  · exact (splitPane_width_controlled ⟨200, 200⟩ ⟨0, 600⟩ none ⟨400, false⟩).1
      (SPEvent.mouseMove 100) rfl (by intro w hw; cases hw)
  · exact (splitPane_width_controlled ⟨200, 200⟩ ⟨0, 600⟩ none ⟨400, true⟩).2 123

/-- C7: the handle is shown exactly when neither pane is hidden, and when
`hidePane` is set a mousedown at the handle's former location leaves the state
unchanged. -/
theorem splitPane_handle_visibility (mins : PaneWidths) (size : Bounds)
    (hp : Option Pane) :
    (hideHandle hp = false ↔ hp = none)
    ∧ (∀ (s : SplitPaneState) (b : ℕ), hideHandle hp = true →
        step mins size hp s (SPEvent.mouseDown b) = s) := by
  constructor
  · cases hp with
    | none => simp [hideHandle]
    | some p => cases p <;> simp [hideHandle]
  · intro s b hh
    simp only [step, hh]
    simp

/-- C7 witness: with the left pane hidden, a primary-button mousedown changes
nothing. -/
theorem splitPane_handle_visibility_witness :
    step ⟨200, 200⟩ ⟨0, 600⟩ (some Pane.left) ⟨400, false⟩
      (SPEvent.mouseDown 0) = ⟨400, false⟩ :=
  (splitPane_handle_visibility ⟨200, 200⟩ ⟨0, 600⟩ (some Pane.left)).2
    ⟨400, false⟩ 0 rfl

/-- C6: for theme keys made of ASCII letters (the shape of every `Theme` key),
the `UI` component performs exactly one root-element CSS write per key, named
`--theme-` followed by the kebab-case form the claim describes, carrying the
theme's value for that key. -/
theorem theme_cssVar_writes (theme : List (String × String))
    (h : ∀ kv ∈ theme, ∀ c ∈ kv.1.data, c ∈ asciiLetters) :
    (themeCssVarWrites theme).length = theme.length
    ∧ themeCssVarWrites theme
        = theme.map (fun kv => ("--theme-" ++ specKebab kv.1, kv.2)) := by
  constructor
  · exact List.length_map theme _
  · unfold themeCssVarWrites
    apply List.map_congr_left
    intro kv hkv
    rw [camelCaseToKebab_eq_specKebab kv.1 (h kv hkv)]

/-- C6 witness: the theme `{fontFamily: "serif"}` produces exactly the write
`--theme-font-family: serif`. -/
theorem theme_cssVar_writes_witness :
    themeCssVarWrites [("fontFamily", "serif")]
      = [("--theme-font-family", "serif")] := by
  have h := (theme_cssVar_writes [("fontFamily", "serif")] (by decide)).2
  rw [h]
  decide

/-- C8: a move starting inside the static columns is a no-op with no callback;
an in-range move of a sortable column reports a list of the same length and
multiset as the input (one element relocated), and the pinned-count callback
fires with count+1 exactly for moves crossing into the pinned region and with
count-1 exactly for moves crossing out of it. -/
theorem glideTable_onColumnMoved_spec (staticLen pinnedCount : ℕ)
    (sortable : List String) (s e : ℕ) :
    (s < staticLen → onColumnMoved staticLen pinnedCount sortable s e
      = (none, none))
    ∧ (staticLen ≤ s → s < staticLen + sortable.length →
        ∃ l, (onColumnMoved staticLen pinnedCount sortable s e).1 = some l
          ∧ l.length = sortable.length ∧ l.Perm sortable)
    ∧ (staticLen ≤ s →
        (((onColumnMoved staticLen pinnedCount sortable s e).2
            = some ((pinnedCount : ℤ) + 1))
          ↔ (staticLen + pinnedCount ≤ s ∧ e < staticLen + pinnedCount))
        ∧ (((onColumnMoved staticLen pinnedCount sortable s e).2
            = some ((pinnedCount : ℤ) - 1))
          ↔ (s < staticLen + pinnedCount ∧ staticLen + pinnedCount ≤ e))) := by
  refine ⟨?_, ?_, ?_⟩
  · intro h
    unfold onColumnMoved
    rw [if_pos h]
  · intro h1 h2
    unfold onColumnMoved
    rw [if_neg (by omega)]
    refine ⟨_, rfl, ?_, ?_⟩
    · exact (movedColumnIds_perm sortable (s - staticLen) (e - staticLen)
        (by omega)).length_eq
    · exact movedColumnIds_perm sortable (s - staticLen) (e - staticLen) (by omega)
  · intro h1
    unfold onColumnMoved
    rw [if_neg (by omega)]
    dsimp only
    constructor
    · by_cases hInto : staticLen + pinnedCount ≤ s ∧ e < staticLen + pinnedCount
      · rw [if_pos hInto]
        simp [hInto]
      · rw [if_neg hInto]
        by_cases hOut : s < staticLen + pinnedCount ∧ staticLen + pinnedCount ≤ e
        · rw [if_pos hOut]
          constructor
          · intro hsome
            simp at hsome
            omega
          · intro hc
            exact absurd hc hInto
        · rw [if_neg hOut]
          constructor
          · intro hsome
            simp at hsome
          · intro hc
            exact absurd hc hInto
    · by_cases hInto : staticLen + pinnedCount ≤ s ∧ e < staticLen + pinnedCount
      · rw [if_pos hInto]
        constructor
        · intro hsome
          simp at hsome
          omega
        · intro hc
          omega
      · rw [if_neg hInto]
        by_cases hOut : s < staticLen + pinnedCount ∧ staticLen + pinnedCount ≤ e
        · rw [if_pos hOut]
          simp [hOut]
        · rw [if_neg hOut]
          constructor
          · intro hsome
            simp at hsome
          · intro hc
            exact absurd hc hOut

/-- C8 witness: with one static column, one pinned column and sortable columns
a, b, c, moving display column 3 to display position 1 keeps the multiset of
sortable ids and reports a pinned count of 2. -/
theorem glideTable_onColumnMoved_witness :
    (∃ l, (onColumnMoved 1 1 ["a", "b", "c"] 3 1).1 = some l
      ∧ l.length = (["a", "b", "c"] : List String).length
      ∧ l.Perm ["a", "b", "c"])
    ∧ (onColumnMoved 1 1 ["a", "b", "c"] 3 1).2 = some ((1 : ℤ) + 1) := by
  constructor
  · exact (glideTable_onColumnMoved_spec 1 1 ["a", "b", "c"] 3 1).2.1
      (by norm_num) (by norm_num)
  · exact ((glideTable_onColumnMoved_spec 1 1 ["a", "b", "c"] 3 1).2.2
      (by norm_num)).1.mpr (by omega)

/-- C9: `getInitials` returns the uppercased first characters of the
whitespace-separated words when there are at most two of them, otherwise only
the first and last such initials — in every case a string of length at most
two. -/
theorem avatar_getInitials_spec (name : String) :
    (getInitials name).data =
      (if (initialsOf name).length ≤ 2 then initialsOf name
       else (initialsOf name).take 1
         ++ (initialsOf name).drop ((initialsOf name).length - 1))
    ∧ (getInitials name).length ≤ 2 := by
  unfold getInitials
  set l := initialsOf name with hl
  by_cases h : 2 < l.length
  · rw [if_pos h, if_neg (by omega)]
    constructor
    · rfl
    · show (l.take 1 ++ l.drop (l.length - 1)).length ≤ 2
      rw [List.length_append, List.length_take, List.length_drop]
      omega
  · rw [if_neg h, if_pos (by omega)]
    constructor
    · rfl
    · show l.length ≤ 2
      omega

/-- C10: the UI reducer is idempotent — re-dispatching any action to its own
result changes nothing; in particular the chrome and spinner show/hide actions
are no-ops when the flag already has the requested value. -/
theorem uiReducer_idempotent {Θ : Type} (s : StateUI Θ) (a : ActionUI Θ) :
    reducer (reducer s a) a = reducer s a := by
  cases a with
  | hideUIChrome =>
    by_cases h : s.showChrome
    · simp [reducer, reducerUI, spreadPatch, h]
    · simp [reducer, reducerUI, spreadPatch, h]
  | hideUISpinner =>
    by_cases h : s.showSpinner
    · simp [reducer, reducerUI, spreadPatch, h]
    · simp [reducer, reducerUI, spreadPatch, h]
  | setMode v => simp [reducer, reducerUI, spreadPatch]
  | setPageVisibility v => simp [reducer, reducerUI, spreadPatch]
  | setTheme t => simp [reducer, reducerUI, spreadPatch]
  | showUIChrome =>
    by_cases h : s.showChrome
    · simp [reducer, reducerUI, spreadPatch, h]
    · simp [reducer, reducerUI, spreadPatch, h]
  | showUISpinner =>
    by_cases h : s.showSpinner
    · simp [reducer, reducerUI, spreadPatch, h]
    · simp [reducer, reducerUI, spreadPatch, h]
